import Mathlib

/-!
Shallow embedding of the version-reconciliation script
`scripts/update-versions.js` (the "Wemp Service Version Updater").

Pure string/number manipulation is translated directly; JavaScript's
number coercions (`Number`, `NaN`, `undefined` in comparisons) are made
explicit through the `JsVal` type.  Network effects (upstream listing
fetches, HEAD probes, the PHP Windows releases metadata) are passed in
as explicit parameters: a listing is an `Except Unit (List String)`
(a thrown fetch error or the sorted version list), a probe verdict is a
function on URLs, and releases metadata is a keyed lookup.  Fallible
code returns `Except Unit`.
-/

namespace Wemp

/-- Result of JavaScript `Number(...)` coercion on a version component,
plus `undefined` for out-of-range array destructuring. -/
inductive JsVal where
  | num : Nat → JsVal
  | nan : JsVal
  | undefined : JsVal
deriving DecidableEq, Repr

/-- JavaScript `>` on version components: comparisons involving `NaN`
or `undefined` are always false. -/
def jsGt : JsVal → JsVal → Bool
  | .num a, .num b => b < a
  | _, _ => false

/-- JavaScript `<` on version components: comparisons involving `NaN`
or `undefined` are always false. -/
def jsLt : JsVal → JsVal → Bool
  | .num a, .num b => a < b
  | _, _ => false

/-- JavaScript `===` on version components: `NaN === NaN` is false,
`undefined === undefined` is true. -/
def jsStrictEq : JsVal → JsVal → Bool
  | .num a, .num b => a == b
  | .undefined, .undefined => true
  | _, _ => false

/-- Digits of a decimal literal folded into a `Nat`; `none` when some
character is not a digit (JavaScript `Number` gives `NaN` there). -/
def natOfChars (l : List Char) : Option Nat :=
  l.foldl
    (fun acc c =>
      match acc with
      | none => none
      | some n => if c.isDigit then some (n * 10 + (c.toNat - 48)) else none)
    (some 0)

/-- JavaScript `Number(s)` restricted to the inputs this script feeds it:
digit strings parse, the empty string is `0`, anything else is `NaN`. -/
def jsNumber (s : String) : JsVal :=
  match natOfChars s.toList with
  | some n => .num n
  | none => .nan

/-- Helper for `split('.')`: accumulate the current segment (reversed). -/
def splitDotsAux : List Char → List Char → List (List Char)
  | [], acc => [acc.reverse]
  | c :: rest, acc =>
    if c = '.' then acc.reverse :: splitDotsAux rest [] else splitDotsAux rest (c :: acc)

/-- JavaScript `s.split('.')`. -/
def splitDotsStr (s : String) : List String :=
  (splitDotsAux s.toList []).map String.mk

/-- `parseVersion` from the script: `v.split('.').map(Number)`. -/
def parseVersion (v : String) : List JsVal :=
  (splitDotsStr v).map jsNumber

/-- JavaScript array destructuring: a component beyond the end of the
parsed list is `undefined`. -/
def comp (l : List JsVal) (i : Nat) : JsVal := l.getD i .undefined

/-- Update classification tags used by the script. -/
inductive UpdateType where
  | major | minor | patch
deriving DecidableEq, Repr

/-- Return value of `compareVersions`: `{isNewer, updateType}` with
`updateType: null` modelled as `none`. -/
structure Classification where
  isNewer : Bool
  updateType : Option UpdateType
deriving DecidableEq, Repr

/-- `compareVersions(newVersion, currentVersion)` from the script.
`currentVersion` is `none` for JavaScript `undefined`; the `!currentVersion`
falsy test is true exactly for `undefined` and the empty string. -/
def compareVersions (newVersion : String) (currentVersion : Option String) : Classification :=
  if currentVersion = none ∨ currentVersion = some "" then ⟨true, some .major⟩
  else
    let n := parseVersion newVersion
    let c := parseVersion (currentVersion.getD "")
    if jsGt (comp n 0) (comp c 0) then ⟨true, some .major⟩
    else if jsLt (comp n 0) (comp c 0) then ⟨false, none⟩
    else if jsGt (comp n 1) (comp c 1) then ⟨true, some .minor⟩
    else if jsLt (comp n 1) (comp c 1) then ⟨false, none⟩
    else if jsGt (comp n 2) (comp c 2) then ⟨true, some .patch⟩
    else ⟨false, none⟩

/-- A string is a well-formed version when it parses into exactly three
numeric components (the adapters enforce this with their admission regex). -/
def wfVer (s : String) : Bool :=
  match parseVersion s with
  | [.num _, .num _, .num _] => true
  | _ => false

/-- Prefix test on character lists. -/
def charsStart : List Char → List Char → Bool
  | [], _ => true
  | _ :: _, [] => false
  | a :: as, b :: bs => a = b && charsStart as bs

/-- Naive substring test on character lists (JavaScript `includes`). -/
def charsHasSub (needle : List Char) : List Char → Bool
  | [] => needle.isEmpty
  | h :: t => charsStart needle (h :: t) || charsHasSub needle t

/-- JavaScript `s.includes(pat)`. -/
def strContains (s pat : String) : Bool :=
  charsHasSub pat.toList s.toList

/-- JavaScript `s.endsWith(suffix)`. -/
def strEndsWith (s suffix : String) : Bool :=
  charsStart suffix.toList.reverse s.toList.reverse

/-- `isValidZip(url)` from the script, with the outcome of the HEAD
probe made explicit: `.error` models a fetch that threw (network
failure or timeout, caught by the `try`), `.ok b` models a response
with `response.ok = b`. -/
def isValidZip (headResult : Except Unit Bool) (url : String) : Bool :=
  match headResult with
  | .error _ => false
  | .ok respOk => respOk && strEndsWith url ".zip"

/-- The filter in `findAvailableUpdates`: same major and minor as the
current version, under JavaScript `===` on `Number`-coerced components. -/
def sameMajorMinor (cur version : String) : Bool :=
  jsStrictEq (comp (parseVersion version) 0) (comp (parseVersion cur) 0) &&
  jsStrictEq (comp (parseVersion version) 1) (comp (parseVersion cur) 1)

/-- The `{patch, latest}` object returned by `findAvailableUpdates`
(`null`/absent both modelled as `none`). -/
structure Updates where
  patch : Option String
  latest : Option String
deriving DecidableEq, Repr

/-- `findAvailableUpdates(availableVersions, currentVersion)` from the
script. -/
def findAvailableUpdates (availableVersions : List String) (currentVersion : Option String) :
    Updates :=
  if currentVersion = none ∨ currentVersion = some "" then
    { patch := none, latest := availableVersions.head? }
  else
    let cur := currentVersion.getD ""
    let patchUpdates := availableVersions.filter (fun version => sameMajorMinor cur version)
    let latestPatch :=
      match patchUpdates.head? with
      | some h => if h = cur then none else some h
      | none => none
    let latestOverall :=
      match availableVersions.head? with
      | some h => if h = cur then none else some h
      | none => none
    { patch := latestPatch, latest := latestOverall }

/-- JavaScript `a || b` on nullable strings: `null`, `undefined` and
the empty string are falsy. -/
def jsOrStr : Option String → Option String → Option String
  | some s, b => if s = "" then b else some s
  | none, b => b

/-- The candidate bundle `{version, downloadUrl, updates}` a service
fetcher returns. -/
structure FetchInfo where
  version : String
  downloadUrl : String
  updates : Updates
deriving DecidableEq, Repr

/-- Common body of the `nginx`, `mariadb` and `phpmyadmin` fetchers
after the upstream listing has been filtered, normalized and sorted:
`listing` is the outcome of the listing fetch (a thrown error or the
sorted version list), `urlOf` the download-URL template, `validZip`
the Artifact Validator's verdict for each URL this run.  `.error ()`
models the fetcher throwing. -/
def genericFetch (listing : Except Unit (List String)) (urlOf : String → String)
    (validZip : String → Bool) (currentVersion : Option String) :
    Except Unit (Option FetchInfo) :=
  match listing with
  | .error e => .error e
  | .ok sortedVersions =>
    if sortedVersions.isEmpty then .ok none
    else
      let updates := findAvailableUpdates sortedVersions currentVersion
      match jsOrStr updates.patch updates.latest with
      | none => .ok none
      | some bestVersion =>
        let downloadUrl := urlOf bestVersion
        if validZip downloadUrl then .ok (some ⟨bestVersion, downloadUrl, updates⟩)
        else .error ()

/-- Download-URL template of the `nginx` fetcher. -/
def nginxUrlOf (v : String) : String :=
  "https://nginx.org/download/nginx-" ++ v ++ ".zip"

/-- Download-URL template of the `mariadb` fetcher. -/
def mariadbUrlOf (v : String) : String :=
  "https://archive.mariadb.org/mariadb-" ++ v ++ "/winx64-packages/mariadb-" ++ v ++ "-winx64.zip"

/-- Download-URL template of the `phpmyadmin` fetcher. -/
def phpmyadminUrlOf (v : String) : String :=
  "https://files.phpmyadmin.net/phpMyAdmin/" ++ v ++ "/phpMyAdmin-" ++ v ++ "-all-languages.zip"

/-- One entry of the PHP Windows releases metadata for a `major.minor`
key: its `version` field and the build-type keys paired with their
`zip.path` values. -/
structure PhpVersionData where
  version : String
  builds : List (String × String)
deriving DecidableEq, Repr

/-- The template key `${major}.${minor}` built in the `php` fetcher from
`bestVersion.split('.')`; a missing component renders as `undefined`. -/
def versionKey (v : String) : String :=
  (splitDotsStr v).getD 0 "undefined" ++ "." ++ (splitDotsStr v).getD 1 "undefined"

/-- The `php` fetcher: listing fetch, `findAvailableUpdates`, then the
Windows releases metadata lookup (key miss, version mismatch, and no
NTS x64 build all throw).  Note: unlike the other three fetchers it
never consults `isValidZip`. -/
def phpFetch (listing : Except Unit (List String))
    (releasesData : Except Unit (String → Option PhpVersionData))
    (currentVersion : Option String) : Except Unit (Option FetchInfo) :=
  match listing with
  | .error e => .error e
  | .ok phpVersions =>
    if phpVersions.isEmpty then .ok none
    else
      let updates := findAvailableUpdates phpVersions currentVersion
      match jsOrStr updates.patch updates.latest with
      | none => .ok none
      | some bestVersion =>
        match releasesData with
        | .error e => .error e
        | .ok data =>
          match data (versionKey bestVersion) with
          | none => .error ()
          | some versionData =>
            if versionData.version ≠ bestVersion then .error ()
            else
              let buildTypes := versionData.builds.filter
                (fun kv => strContains kv.1 "nts" && strContains kv.1 "x64")
              match buildTypes.head? with
              | none => .error ()
              | some build =>
                .ok (some ⟨bestVersion,
                  "https://windows.php.net/downloads/releases/" ++ build.2, updates⟩)

/-- The four tracked services, in the iteration order of
`Object.keys(serviceFetchers)`. -/
inductive Service where
  | nginx | mariadb | php | phpmyadmin
deriving DecidableEq, Repr

/-- Iteration order of the reconciliation loop. -/
def services : List Service := [.nginx, .mariadb, .php, .phpmyadmin]

/-- A persisted manifest entry `{version, downloadUrl}`. -/
structure Entry where
  version : String
  downloadUrl : String
deriving DecidableEq, Repr

/-- The manifest `versions.json`: one optional entry per service. -/
structure Manifest where
  nginx : Option Entry
  mariadb : Option Entry
  php : Option Entry
  phpmyadmin : Option Entry
deriving DecidableEq, Repr

/-- Read a service's manifest entry (`versions[service]`). -/
def Manifest.get (m : Manifest) : Service → Option Entry
  | .nginx => m.nginx
  | .mariadb => m.mariadb
  | .php => m.php
  | .phpmyadmin => m.phpmyadmin

/-- Overwrite a service's manifest entry (`versions[service] = ...`). -/
def Manifest.set (m : Manifest) (s : Service) (e : Option Entry) : Manifest :=
  match s with
  | .nginx => { m with nginx := e }
  | .mariadb => { m with mariadb := e }
  | .php => { m with php := e }
  | .phpmyadmin => { m with phpmyadmin := e }

/-- A record pushed onto `updateSummary.patch`. -/
structure PatchUpdate where
  service : Service
  fromVersion : String
  toVersion : String
deriving DecidableEq, Repr

/-- A record pushed onto `updateSummary.majorMinor`; `type` carries
`latestComparison.updateType`. -/
structure MajorMinorUpdate where
  service : Service
  fromVersion : String
  toVersion : String
  type : Option UpdateType
deriving DecidableEq, Repr

/-- Per-service outcome of one iteration of the reconciliation loop. -/
structure StepOut where
  entry : Option Entry
  patchAdds : List PatchUpdate
  mmAdds : List MajorMinorUpdate
  setPatchFlag : Bool
  setMMFlag : Bool
  failed : Bool
deriving DecidableEq, Repr

/-- The engine-side current version string
`versions[service]?.version || 'none'`. -/
def engineCur : Option Entry → String
  | some e => if e.version = "" then "none" else e.version
  | none => "none"

/-- The body of the per-service `try`/`catch` in `updateVersions`
(lines 282-333): how one service's fetch result updates that service's
manifest entry and contributes to the summary.  A thrown fetch
(`.error`) is caught at the service boundary and only marks the
service failed. -/
def processService (service : Service) (entry0 : Option Entry)
    (fetchRes : Except Unit (Option FetchInfo)) : StepOut :=
  match fetchRes with
  | .error _ => ⟨entry0, [], [], false, false, true⟩
  | .ok none => ⟨entry0, [], [], false, false, false⟩
  | .ok (some latestInfo) =>
    let currentVersion := engineCur entry0
    let patch := latestInfo.updates.patch
    let latest := latestInfo.updates.latest
    let patchRec : Option PatchUpdate :=
      match patch with
      | some p =>
        if p ≠ "" ∧ p ≠ currentVersion ∧ (compareVersions p (some currentVersion)).isNewer then
          some ⟨service, currentVersion, p⟩
        else none
      | none => none
    let mmRec : Option MajorMinorUpdate :=
      match latest with
      | some l =>
        if l ≠ "" ∧ l ≠ currentVersion ∧ patch ≠ some l then
          let c := compareVersions l (some currentVersion)
          if c.isNewer ∧ c.updateType ≠ some .patch then
            some ⟨service, currentVersion, l, c.updateType⟩
          else none
        else none
      | none => none
    let selectedVersion := jsOrStr patch latest
    let entry1 :=
      match selectedVersion with
      | some sv =>
        if sv ≠ "" ∧ sv ≠ currentVersion then some ⟨sv, latestInfo.downloadUrl⟩ else entry0
      | none => entry0
    ⟨entry1, patchRec.toList, mmRec.toList, patchRec.isSome, mmRec.isSome, false⟩

/-- The assignment of per-service fetchers for a run: the behavior of
`serviceFetchers[service](currentVersion)`. -/
def Fetchers := Service → Option String → Except Unit (Option FetchInfo)

/-- Mutable state threaded through the reconciliation loop. -/
structure EngineState where
  versions : Manifest
  hasPatchUpdates : Bool
  hasMajorMinorUpdates : Bool
  patchSummary : List PatchUpdate
  majorMinorSummary : List MajorMinorUpdate
  majorMinorServices : List Service
  failedServices : List Service

/-- One iteration of the `for (const service of services)` loop. -/
def engineStep (F : Fetchers) (st : EngineState) (service : Service) : EngineState :=
  let cur0 := (st.versions.get service).map Entry.version
  let out := processService service (st.versions.get service) (F service cur0)
  { versions := st.versions.set service out.entry
    hasPatchUpdates := st.hasPatchUpdates || out.setPatchFlag
    hasMajorMinorUpdates := st.hasMajorMinorUpdates || out.setMMFlag
    patchSummary := st.patchSummary ++ out.patchAdds
    majorMinorSummary := st.majorMinorSummary ++ out.mmAdds
    majorMinorServices := st.majorMinorServices ++ (if out.setMMFlag then [service] else [])
    failedServices := st.failedServices ++ (if out.failed then [service] else []) }

/-- The whole reconciliation loop of `updateVersions` over a loaded
manifest. -/
def runEngine (m0 : Manifest) (F : Fetchers) : EngineState :=
  services.foldl (engineStep F) ⟨m0, false, false, [], [], [], []⟩

/-- The write condition at line 348: `hasPatchUpdates || hasMajorMinorUpdates`. -/
def writeOccurred (st : EngineState) : Bool :=
  st.hasPatchUpdates || st.hasMajorMinorUpdates

/-- `JSON.stringify` fragment for one manifest entry under 2-space
indentation (entry values contain no characters needing JSON escapes). -/
def stringifyEntry (name : String) (e : Entry) : String :=
  "  \"" ++ name ++ "\": \x7b\n    \"version\": \"" ++ e.version ++
    "\",\n    \"downloadUrl\": \"" ++ e.downloadUrl ++ "\"\n  \x7d"

/-- `JSON.stringify(versions, null, 2)` for the manifest, services in
file key order. -/
def stringifyManifest (m : Manifest) : String :=
  let pairs := [("nginx", m.nginx), ("mariadb", m.mariadb),
      ("php", m.php), ("phpmyadmin", m.phpmyadmin)].filterMap
    (fun p => p.2.map (fun e => stringifyEntry p.1 e))
  if pairs.isEmpty then "\x7b\x7d"
  else "\x7b\n" ++ String.intercalate ",\n" pairs ++ "\n\x7d"

/-- The whole `updateVersions` run: load the manifest (a parse failure
rethrows), reconcile, and decide the write.  The second component is
the exact file content written back, `none` when the file is not
touched. -/
def updateVersionsRun (load : Except Unit Manifest) (F : Fetchers) :
    Except Unit (EngineState × Option String) :=
  match load with
  | .error e => .error e
  | .ok m0 =>
    let st := runEngine m0 F
    .ok (st, if writeOccurred st then some (stringifyManifest st.versions ++ "\n") else none)

/-- The process exit code: the top-level `.catch` exits 1 exactly when
`updateVersions` rejects. -/
def exitCode (load : Except Unit Manifest) (F : Fetchers) : Nat :=
  match updateVersionsRun load F with
  | .ok _ => 0
  | .error _ => 1

/-- What every fetcher in the script guarantees about a successful
candidate bundle over its (fixed) sorted listing `L`: the `updates`
object is `findAvailableUpdates` of `L` against the version it was
called with, and `version` is `updates.patch || updates.latest`. -/
def FaithfulFetcher (L : List String) (f : Option String → Except Unit (Option FetchInfo)) :
    Prop :=
  ∀ cur info, f cur = .ok (some info) →
    info.updates = findAvailableUpdates L cur ∧
    some info.version = jsOrStr info.updates.patch info.updates.latest

/-- The per-service outcome of a run, read off from its own fetcher
and its own initial entry. -/
def perOut (m : Manifest) (F : Fetchers) (s : Service) : StepOut :=
  processService s (m.get s) (F s ((m.get s).map Entry.version))

/-- One reconciliation iteration restricted to a single service: feed
the service's own entry to its fetcher and process the result. -/
def stepOf (s : Service) (f : Option String → Except Unit (Option FetchInfo))
    (e : Option Entry) : StepOut :=
  processService s e (f (e.map Entry.version))

/-- All entries present in a manifest carry well-formed version strings. -/
def wfManifest (m : Manifest) : Bool :=
  (match m.nginx with | some e => wfVer e.version | none => true) &&
  (match m.mariadb with | some e => wfVer e.version | none => true) &&
  (match m.php with | some e => wfVer e.version | none => true) &&
  (match m.phpmyadmin with | some e => wfVer e.version | none => true)

theorem wfVer_three {s : String} (h : wfVer s = true) :
    ∃ a b c, parseVersion s = [.num a, .num b, .num c] := by
  unfold wfVer at h
  split at h
  · next a b c heq => exact ⟨a, b, c, heq⟩
  · simp at h

theorem wfVer_ne_empty {s : String} (h : wfVer s = true) : s ≠ "" := by
  rintro rfl; exact absurd h (by decide)

theorem wfVer_ne_noneStr {s : String} (h : wfVer s = true) : s ≠ "none" := by
  rintro rfl; exact absurd h (by decide)

theorem compareVersions_vs_noneStr {v : String} (h : wfVer v = true) :
    compareVersions v (some "none") = ⟨false, none⟩ := by
  obtain ⟨a, b, c, hp⟩ := wfVer_three h
  unfold compareVersions
  rw [if_neg (by decide)]
  have hn : parseVersion "none" = [.nan] := rfl
  have hj : jsNumber "none" = .nan := rfl
  simp only [Option.getD, hn, hp, comp, List.getD, List.get?, jsGt, jsLt]
  simp [hj]

theorem compareVersions_parsed {s t : String} {a b c a2 b2 c2 : Nat}
    (hs : parseVersion s = [.num a, .num b, .num c])
    (ht : parseVersion t = [.num a2, .num b2, .num c2]) :
    compareVersions s (some t) =
      if a2 < a then ⟨true, some .major⟩
      else if a < a2 then ⟨false, none⟩
      else if b2 < b then ⟨true, some .minor⟩
      else if b < b2 then ⟨false, none⟩
      else if c2 < c then ⟨true, some .patch⟩
      else ⟨false, none⟩ := by
  have ht0 : t ≠ "" := by
    rintro rfl
    rw [show parseVersion "" = [.num 0] from rfl] at ht
    simp at ht
  unfold compareVersions
  rw [if_neg (by simp [ht0])]
  simp only [Option.getD, hs, ht, comp, List.getD, List.get?, jsGt, jsLt]
  simp only [decide_eq_true_eq]

/-- C5: for well-formed three-component versions, `compareVersions`
compares major, then minor, then patch; the first non-equal pair
decides direction and classification tag, and a candidate that is not
strictly greater lexicographically yields `isNewer: false` with no
`updateType`. -/
theorem c5_comparator_lexicographic (s t : String) (a b c a2 b2 c2 : Nat)
    (hs : parseVersion s = [.num a, .num b, .num c])
    (ht : parseVersion t = [.num a2, .num b2, .num c2]) :
    ((compareVersions s (some t)).isNewer = true ↔
      (a2 < a ∨ (a = a2 ∧ (b2 < b ∨ (b = b2 ∧ c2 < c))))) ∧
    (a2 < a → compareVersions s (some t) = ⟨true, some .major⟩) ∧
    (a = a2 → b2 < b → compareVersions s (some t) = ⟨true, some .minor⟩) ∧
    (a = a2 → b = b2 → c2 < c → compareVersions s (some t) = ⟨true, some .patch⟩) ∧
    (¬(a2 < a ∨ (a = a2 ∧ (b2 < b ∨ (b = b2 ∧ c2 < c)))) →
      compareVersions s (some t) = ⟨false, none⟩) := by
  rw [compareVersions_parsed hs ht]
  refine ⟨?_, ?_, ?_, ?_, ?_⟩ <;> split_ifs <;> simp_all <;> omega

/-- Witness for C5 at the spec's own examples: `(2,0,0)` against
`(1,9,9)` classifies as a major update. -/
theorem c5_comparator_lexicographic_witness :
    (parseVersion "2.0.0" = [.num 2, .num 0, .num 0]) ∧
    (parseVersion "1.9.9" = [.num 1, .num 9, .num 9]) ∧
    compareVersions "2.0.0" (some "1.9.9") = ⟨true, some .major⟩ :=
  ⟨rfl, rfl, (c5_comparator_lexicographic "2.0.0" "1.9.9" 2 0 0 1 9 9 rfl rfl).2.1 (by decide)⟩

/-- C6: an absent (`undefined`) or empty current version always yields
`{isNewer: true, updateType: major}`, whatever the candidate is. -/
theorem c6_absent_current (v : String) :
    compareVersions v none = ⟨true, some .major⟩ ∧
    compareVersions v (some "") = ⟨true, some .major⟩ := by
  constructor <;> · unfold compareVersions; rw [if_pos (by simp)]

/-- C7: `isValidZip` accepts exactly when the HEAD probe resolved with
a success status and the URL ends in `.zip`; a thrown fetch (network
failure or timeout) or a non-success status yields `false` rather than
an error, so the caller cannot distinguish "not valid" from "network
failure". -/
theorem c7_validator_accepts_iff (r : Except Unit Bool) (u : String) :
    isValidZip r u = true ↔ (r = .ok true ∧ strEndsWith u ".zip" = true) := by
  cases r with
  | error e => simp [isValidZip]
  | ok b => cases b <;> simp [isValidZip]



theorem fa_none_cur (L : List String) : findAvailableUpdates L none = ⟨none, L.head?⟩ := by
  unfold findAvailableUpdates
  rw [if_pos (Or.inl rfl)]

theorem fa_patch_some {L : List String} {v p : String} (hv : v ≠ "")
    (h : (findAvailableUpdates L (some v)).patch = some p) :
    (L.filter (fun x => sameMajorMinor v x)).head? = some p ∧ p ≠ v := by
  unfold findAvailableUpdates at h
  rw [if_neg (by simp [hv])] at h
  dsimp only at h
  split at h
  · next q heq =>
    split at h
    · simp at h
    · next hne =>
      injection h with h
      subst h
      exact ⟨heq, hne⟩
  · simp at h

theorem fa_latest_some {L : List String} {v l : String} (hv : v ≠ "")
    (h : (findAvailableUpdates L (some v)).latest = some l) :
    L.head? = some l ∧ l ≠ v := by
  unfold findAvailableUpdates at h
  rw [if_neg (by simp [hv])] at h
  dsimp only at h
  split at h
  · next q heq =>
    split at h
    · simp at h
    · next hne =>
      injection h with h
      subst h
      exact ⟨heq, hne⟩
  · simp at h

theorem filter_head_wf {L : List String} {f : String → Bool} {p : String}
    (h : (L.filter f).head? = some p) : p ∈ L ∧ f p = true := by
  have hmem : p ∈ L.filter f := by
    cases hL : L.filter f with
    | nil => rw [hL] at h; simp at h
    | cons x t =>
      rw [hL] at h
      simp at h
      exact h ▸ List.mem_cons_self x t
  exact ⟨(List.mem_filter.mp hmem).1, (List.mem_filter.mp hmem).2⟩

theorem sameMajorMinor_self {v : String} (hwf : wfVer v = true) :
    sameMajorMinor v v = true := by
  obtain ⟨a, b, c, hp⟩ := wfVer_three hwf
  unfold sameMajorMinor
  rw [hp]
  simp [comp, jsStrictEq]

theorem fa_at_head {L : List String} {v : String} (hhead : L.head? = some v)
    (hwf : wfVer v = true) : findAvailableUpdates L (some v) = ⟨none, none⟩ := by
  have hv : v ≠ "" := wfVer_ne_empty hwf
  obtain ⟨t, rfl⟩ : ∃ t, L = v :: t := by
    cases L with
    | nil => simp at hhead
    | cons x t =>
      simp at hhead
      exact ⟨t, by rw [hhead]⟩
  unfold findAvailableUpdates
  rw [if_neg (by simp [hv])]
  simp [List.filter_cons, sameMajorMinor_self hwf, List.head?]

theorem sameMajorMinor_congr {v p : String} (hv : wfVer v = true) (hpw : wfVer p = true)
    (h : sameMajorMinor v p = true) : ∀ x, sameMajorMinor p x = sameMajorMinor v x := by
  obtain ⟨a, b, c, hpv⟩ := wfVer_three hv
  obtain ⟨a2, b2, c2, hpp⟩ := wfVer_three hpw
  unfold sameMajorMinor at h ⊢
  rw [hpv, hpp] at h
  simp only [comp, List.getD, List.get?, Option.getD, jsStrictEq, Bool.and_eq_true,
    beq_iff_eq] at h
  intro x
  rw [hpv, hpp]
  simp only [comp, List.getD, List.get?, Option.getD]
  rw [h.1, h.2]

theorem genericFetch_faithful (L : List String) (U : String → String) (V : String → Bool) :
    FaithfulFetcher L (genericFetch (.ok L) U V) := by
  intro cur info h
  unfold genericFetch at h
  dsimp only at h
  by_cases hL : L.isEmpty = true
  · rw [if_pos hL] at h
    simp at h
  · rw [if_neg hL] at h
    split at h
    · simp at h
    · next best hbest =>
      split at h
      · injection h with h
        injection h with h
        subst h
        exact ⟨rfl, hbest.symm⟩
      · simp at h

theorem phpFetch_faithful (L : List String)
    (rd : Except Unit (String → Option PhpVersionData)) :
    FaithfulFetcher L (phpFetch (.ok L) rd) := by
  intro cur info h
  unfold phpFetch at h
  dsimp only at h
  by_cases hL : L.isEmpty = true
  · rw [if_pos hL] at h
    simp at h
  · rw [if_neg hL] at h
    split at h
    · simp at h
    · next best hbest =>
      cases rd with
      | error e => simp at h
      | ok data =>
        dsimp only at h
        split at h
        · simp at h
        · next vd hvd =>
          split at h
          · simp at h
          · split at h
            · simp at h
            · next build hbuild =>
              injection h with h
              injection h with h
              subst h
              exact ⟨rfl, hbest.symm⟩

theorem errorFetch_faithful (L : List String) (U : String → String) (V : String → Bool) :
    FaithfulFetcher L (genericFetch (.error ()) U V) := by
  intro cur info h
  simp [genericFetch] at h




theorem head?_mem {α : Type} {L : List α} {a : α} (h : L.head? = some a) : a ∈ L := by
  cases L with
  | nil => simp at h
  | cons x t => simp at h; exact h ▸ List.mem_cons_self x t

theorem engineCur_some {v u : String} (hv : v ≠ "") : engineCur (some ⟨v, u⟩) = v := by
  simp [engineCur, hv]

theorem stepOf_error {s : Service} {f : Option String → Except Unit (Option FetchInfo)}
    {e : Option Entry} (h : f (e.map Entry.version) = .error ()) :
    stepOf s f e = ⟨e, [], [], false, false, true⟩ := by
  unfold stepOf
  rw [h]
  rfl

theorem stepOf_none {s : Service} {f : Option String → Except Unit (Option FetchInfo)}
    {e : Option Entry} (h : f (e.map Entry.version) = .ok none) :
    stepOf s f e = ⟨e, [], [], false, false, false⟩ := by
  unfold stepOf
  rw [h]
  rfl

theorem stepOf_ok_patch_none {s : Service} {f : Option String → Except Unit (Option FetchInfo)}
    {e : Option Entry} {info : FetchInfo} (h : f (e.map Entry.version) = .ok (some info))
    (hp : info.updates.patch = none) :
    (stepOf s f e).patchAdds = [] ∧ (stepOf s f e).setPatchFlag = false := by
  unfold stepOf
  rw [h]
  unfold processService
  dsimp only
  rw [hp]
  exact ⟨rfl, rfl⟩

theorem stepOf_ok_entry_sel {s : Service} {f : Option String → Except Unit (Option FetchInfo)}
    {e : Option Entry} {info : FetchInfo} {sv : String}
    (h : f (e.map Entry.version) = .ok (some info))
    (hsel : jsOrStr info.updates.patch info.updates.latest = some sv)
    (h1 : sv ≠ "") (h2 : sv ≠ engineCur e) :
    (stepOf s f e).entry = some ⟨sv, info.downloadUrl⟩ := by
  unfold stepOf
  rw [h]
  unfold processService
  dsimp only
  rw [hsel]
  simp [h1, h2]

theorem stepOf_ok_mm_not_newer {s : Service} {f : Option String → Except Unit (Option FetchInfo)}
    {e : Option Entry} {info : FetchInfo} {l : String}
    (h : f (e.map Entry.version) = .ok (some info))
    (hl : info.updates.latest = some l)
    (hc : (compareVersions l (some (engineCur e))).isNewer = false) :
    (stepOf s f e).mmAdds = [] ∧ (stepOf s f e).setMMFlag = false := by
  unfold stepOf
  rw [h]
  unfold processService
  dsimp only
  rw [hl]
  simp [hc]

theorem stepOf_ok_patchFlag {s : Service} {f : Option String → Except Unit (Option FetchInfo)}
    {e : Option Entry} {info : FetchInfo} (h : f (e.map Entry.version) = .ok (some info))
    (hflag : (stepOf s f e).setPatchFlag = true) :
    ∃ p, info.updates.patch = some p ∧ p ≠ "" ∧ p ≠ engineCur e := by
  unfold stepOf at hflag
  rw [h] at hflag
  unfold processService at hflag
  dsimp only at hflag
  cases hp : info.updates.patch with
  | none => rw [hp] at hflag; simp at hflag
  | some p =>
    rw [hp] at hflag
    dsimp only at hflag
    by_cases hc : p ≠ "" ∧ p ≠ engineCur e ∧ (compareVersions p (some (engineCur e))).isNewer
    · exact ⟨p, rfl, hc.1, hc.2.1⟩
    · rw [if_neg hc] at hflag; simp at hflag

theorem stepOf_ok_mmFlag {s : Service} {f : Option String → Except Unit (Option FetchInfo)}
    {e : Option Entry} {info : FetchInfo} (h : f (e.map Entry.version) = .ok (some info))
    (hflag : (stepOf s f e).setMMFlag = true) :
    ∃ l, info.updates.latest = some l ∧ l ≠ "" ∧ l ≠ engineCur e := by
  unfold stepOf at hflag
  rw [h] at hflag
  unfold processService at hflag
  dsimp only at hflag
  cases hl : info.updates.latest with
  | none => rw [hl] at hflag; simp at hflag
  | some l =>
    rw [hl] at hflag
    dsimp only at hflag
    by_cases hc : l ≠ "" ∧ l ≠ engineCur e ∧ info.updates.patch ≠ some l
    · exact ⟨l, rfl, hc.1, hc.2.1⟩
    · rw [if_neg hc] at hflag; simp at hflag



def AtHead (L : List String) (e : Option Entry) : Prop :=
  ∃ v u, e = some ⟨v, u⟩ ∧ L.head? = some v ∧ wfVer v = true

def AtClassHead (L : List String) (e : Option Entry) : Prop :=
  ∃ p u, e = some ⟨p, u⟩ ∧ wfVer p = true ∧
    (L.filter (fun x => sameMajorMinor p x)).head? = some p

theorem stepOf_atHead {s : Service} {L : List String}
    {f : Option String → Except Unit (Option FetchInfo)}
    (_hL : ∀ x ∈ L, wfVer x = true) (hf : FaithfulFetcher L f)
    {e : Option Entry} (h : AtHead L e) :
    (stepOf s f e).entry = e ∧ (stepOf s f e).patchAdds = [] ∧ (stepOf s f e).mmAdds = [] ∧
    (stepOf s f e).setPatchFlag = false ∧ (stepOf s f e).setMMFlag = false := by
  obtain ⟨v, u, rfl, hhead, hwf⟩ := h
  cases hres : f ((some (⟨v, u⟩ : Entry)).map Entry.version) with
  | error err =>
    cases err
    rw [stepOf_error hres]
    exact ⟨rfl, rfl, rfl, rfl, rfl⟩
  | ok oinfo =>
    cases oinfo with
    | none =>
      rw [stepOf_none hres]
      exact ⟨rfl, rfl, rfl, rfl, rfl⟩
    | some info =>
      obtain ⟨hu, hver⟩ := hf _ _ hres
      dsimp only [Option.map] at hu
      rw [fa_at_head hhead hwf] at hu
      rw [hu] at hver
      simp [jsOrStr] at hver

theorem stepOf_atClassHead {s : Service} {L : List String}
    {f : Option String → Except Unit (Option FetchInfo)}
    (hL : ∀ x ∈ L, wfVer x = true) (hf : FaithfulFetcher L f)
    {e : Option Entry} (h : AtClassHead L e) :
    (stepOf s f e).patchAdds = [] ∧ (stepOf s f e).setPatchFlag = false ∧
    (((stepOf s f e).entry = e ∧ (stepOf s f e).mmAdds = [] ∧ (stepOf s f e).setMMFlag = false) ∨
      AtHead L (stepOf s f e).entry) := by
  obtain ⟨p, u, rfl, hpwf, hfilter⟩ := h
  have hp : p ≠ "" := wfVer_ne_empty hpwf
  cases hres : f ((some (⟨p, u⟩ : Entry)).map Entry.version) with
  | error err =>
    cases err
    rw [stepOf_error hres]
    exact ⟨rfl, rfl, Or.inl ⟨rfl, rfl, rfl⟩⟩
  | ok oinfo =>
    cases oinfo with
    | none =>
      rw [stepOf_none hres]
      exact ⟨rfl, rfl, Or.inl ⟨rfl, rfl, rfl⟩⟩
    | some info =>
      obtain ⟨hu, hver⟩ := hf _ _ hres
      dsimp only [Option.map] at hu
      have hpatch : (findAvailableUpdates L (some p)).patch = none := by
        unfold findAvailableUpdates
        rw [if_neg (by simp [hp])]
        dsimp only
        simp only [Option.getD]
        rw [hfilter]
        simp
      have hipn : info.updates.patch = none := by rw [hu]; exact hpatch
      obtain ⟨hpa, hpf⟩ := stepOf_ok_patch_none hres hipn
      refine ⟨hpa, hpf, ?_⟩
      cases hlat : (findAvailableUpdates L (some p)).latest with
      | none =>
        rw [hu, hpatch, hlat] at hver
        simp [jsOrStr] at hver
      | some w =>
        obtain ⟨hLh, hwp⟩ := fa_latest_some hp hlat
        have hwfw : wfVer w = true := hL w (head?_mem hLh)
        have hilat : info.updates.latest = some w := by rw [hu]; exact hlat
        have hent := stepOf_ok_entry_sel (s := s) hres
          (by rw [hipn, hilat]; rfl)
          (wfVer_ne_empty hwfw)
          (by rw [engineCur_some hp]; exact hwp)
        right
        exact ⟨w, info.downloadUrl, hent, hLh, hwfw⟩

theorem stepOf_first {s : Service} {L : List String}
    {f : Option String → Except Unit (Option FetchInfo)}
    (hL : ∀ x ∈ L, wfVer x = true) (hf : FaithfulFetcher L f)
    (e0 : Option Entry) (he0 : ∀ e, e0 = some e → wfVer e.version = true) :
    ((stepOf s f e0).entry = e0 ∧ (stepOf s f e0).patchAdds = [] ∧
      (stepOf s f e0).mmAdds = [] ∧ (stepOf s f e0).setPatchFlag = false ∧
      (stepOf s f e0).setMMFlag = false) ∨
    AtHead L (stepOf s f e0).entry ∨ AtClassHead L (stepOf s f e0).entry := by
  cases hres : f (e0.map Entry.version) with
  | error err =>
    cases err
    rw [stepOf_error hres]
    exact Or.inl ⟨rfl, rfl, rfl, rfl, rfl⟩
  | ok oinfo =>
    cases oinfo with
    | none =>
      rw [stepOf_none hres]
      exact Or.inl ⟨rfl, rfl, rfl, rfl, rfl⟩
    | some info =>
      obtain ⟨hu, hver⟩ := hf _ _ hres
      cases e0 with
      | none =>
        dsimp only [Option.map] at hu
        rw [fa_none_cur] at hu
        cases hLh : L.head? with
        | none =>
          rw [hLh] at hu
          rw [hu] at hver
          simp [jsOrStr] at hver
        | some w =>
          rw [hLh] at hu
          have hwfw : wfVer w = true := hL w (head?_mem hLh)
          have hent := stepOf_ok_entry_sel (s := s) hres
            (by rw [hu]; rfl)
            (wfVer_ne_empty hwfw)
            (by show w ≠ engineCur none; unfold engineCur; exact wfVer_ne_noneStr hwfw)
          right; left
          exact ⟨w, info.downloadUrl, hent, hLh, hwfw⟩
      | some ent =>
        obtain ⟨v0, u0⟩ := ent
        dsimp only [Option.map] at hu
        have hv0 : wfVer v0 = true := he0 _ rfl
        have hv0ne : v0 ≠ "" := wfVer_ne_empty hv0
        cases hpat : (findAvailableUpdates L (some v0)).patch with
        | some p =>
          obtain ⟨hfil, hpnev⟩ := fa_patch_some hv0ne hpat
          obtain ⟨hmemL, hsm⟩ := filter_head_wf hfil
          have hpwf : wfVer p = true := hL p hmemL
          have hipat : info.updates.patch = some p := by rw [hu]; exact hpat
          have hent := stepOf_ok_entry_sel (s := s) hres
            (by rw [hipat]; simp [jsOrStr, wfVer_ne_empty hpwf])
            (wfVer_ne_empty hpwf)
            (by rw [engineCur_some hv0ne]; exact hpnev)
          right; right
          refine ⟨p, info.downloadUrl, hent, hpwf, ?_⟩
          rw [List.filter_congr (fun x _ => sameMajorMinor_congr hv0 hpwf hsm x)]
          exact hfil
        | none =>
          cases hlat : (findAvailableUpdates L (some v0)).latest with
          | none =>
            rw [hu, hpat, hlat] at hver
            simp [jsOrStr] at hver
          | some w =>
            obtain ⟨hLh, hwnev⟩ := fa_latest_some hv0ne hlat
            have hwfw : wfVer w = true := hL w (head?_mem hLh)
            have hent := stepOf_ok_entry_sel (s := s) hres
              (by rw [hu, hpat, hlat]; rfl)
              (wfVer_ne_empty hwfw)
              (by rw [engineCur_some hv0ne]; exact hwnev)
            right; left
            exact ⟨w, info.downloadUrl, hent, hLh, hwfw⟩



theorem stepOf_converges {s : Service} {L : List String}
    {f : Option String → Except Unit (Option FetchInfo)}
    (hL : ∀ x ∈ L, wfVer x = true) (hf : FaithfulFetcher L f)
    (e0 : Option Entry) (he0 : ∀ e, e0 = some e → wfVer e.version = true) :
    (stepOf s f (stepOf s f e0).entry).patchAdds = [] ∧
    (stepOf s f (stepOf s f e0).entry).setPatchFlag = false ∧
    (stepOf s f (stepOf s f (stepOf s f e0).entry).entry).entry =
      (stepOf s f (stepOf s f e0).entry).entry ∧
    (stepOf s f (stepOf s f (stepOf s f e0).entry).entry).patchAdds = [] ∧
    (stepOf s f (stepOf s f (stepOf s f e0).entry).entry).mmAdds = [] ∧
    (stepOf s f (stepOf s f (stepOf s f e0).entry).entry).setPatchFlag = false ∧
    (stepOf s f (stepOf s f (stepOf s f e0).entry).entry).setMMFlag = false := by
  rcases stepOf_first hL hf e0 he0 with ⟨h1e, h1pa, h1ma, h1pf, h1mf⟩ | h1At | h1AtC
  · refine ⟨?_, ?_, ?_, ?_, ?_, ?_, ?_⟩
    · rw [h1e]; exact h1pa
    · rw [h1e]; exact h1pf
    · rw [h1e, h1e]; exact h1e
    · rw [h1e, h1e]; exact h1pa
    · rw [h1e, h1e]; exact h1ma
    · rw [h1e, h1e]; exact h1pf
    · rw [h1e, h1e]; exact h1mf
  · obtain ⟨h2e, h2pa, h2ma, h2pf, h2mf⟩ := stepOf_atHead hL hf h1At
    refine ⟨h2pa, h2pf, ?_, ?_, ?_, ?_, ?_⟩
    · rw [h2e]; exact h2e
    · rw [h2e]; exact h2pa
    · rw [h2e]; exact h2ma
    · rw [h2e]; exact h2pf
    · rw [h2e]; exact h2mf
  · obtain ⟨h2pa, h2pf, hrest⟩ := stepOf_atClassHead hL hf h1AtC
    rcases hrest with ⟨h2e, h2ma, h2mf⟩ | h2At
    · refine ⟨h2pa, h2pf, ?_, ?_, ?_, ?_, ?_⟩
      · rw [h2e]; exact h2e
      · rw [h2e]; exact h2pa
      · rw [h2e]; exact h2ma
      · rw [h2e]; exact h2pf
      · rw [h2e]; exact h2mf
    · obtain ⟨h3e, h3pa, h3ma, h3pf, h3mf⟩ := stepOf_atHead hL hf h2At
      exact ⟨h2pa, h2pf, h3e, h3pa, h3ma, h3pf, h3mf⟩

theorem stepOf_flag_changes {s : Service} {L : List String}
    {f : Option String → Except Unit (Option FetchInfo)}
    (hL : ∀ x ∈ L, wfVer x = true) (hf : FaithfulFetcher L f)
    (e0 : Option Entry) (he0 : ∀ e, e0 = some e → wfVer e.version = true)
    (h : (stepOf s f e0).setPatchFlag = true ∨ (stepOf s f e0).setMMFlag = true) :
    (stepOf s f e0).entry ≠ e0 := by
  cases hres : f (e0.map Entry.version) with
  | error err =>
    cases err
    rw [stepOf_error hres] at h
    simp at h
  | ok oinfo =>
    cases oinfo with
    | none =>
      rw [stepOf_none hres] at h
      simp at h
    | some info =>
      obtain ⟨hu, hver⟩ := hf _ _ hres
      have hchange : ∀ sv, jsOrStr info.updates.patch info.updates.latest = some sv →
          sv ≠ "" → sv ≠ engineCur e0 → (stepOf s f e0).entry ≠ e0 := by
        intro sv hsel h1 h2
        rw [stepOf_ok_entry_sel (s := s) hres hsel h1 h2]
        cases e0 with
        | none => simp
        | some ent =>
          obtain ⟨v0, u0⟩ := ent
          have hv0ne : v0 ≠ "" := wfVer_ne_empty (he0 _ rfl)
          rw [engineCur_some hv0ne] at h2
          intro heq
          injection heq with heq
          exact h2 (congrArg Entry.version heq)
      rcases h with hflag | hflag
      · obtain ⟨p, hp, hpne, hpnec⟩ := stepOf_ok_patchFlag hres hflag
        exact hchange p (by rw [hp]; simp [jsOrStr, hpne]) hpne hpnec
      · obtain ⟨l, hl, hlne, hlnec⟩ := stepOf_ok_mmFlag hres hflag
        cases e0 with
        | none =>
          dsimp only [Option.map] at hu
          rw [fa_none_cur] at hu
          have hpn : info.updates.patch = none := by rw [hu]
          exact hchange l (by rw [hpn, hl]; rfl) hlne hlnec
        | some ent =>
          obtain ⟨v0, u0⟩ := ent
          dsimp only [Option.map] at hu
          have hv0 : wfVer v0 = true := he0 _ rfl
          have hv0ne : v0 ≠ "" := wfVer_ne_empty hv0
          cases hpat : info.updates.patch with
          | none => exact hchange l (by rw [hpat, hl]; rfl) hlne hlnec
          | some p =>
            have hpat2 : (findAvailableUpdates L (some v0)).patch = some p := by
              rw [← hu]; exact hpat
            obtain ⟨hfil, hpnev⟩ := fa_patch_some hv0ne hpat2
            obtain ⟨hmemL, hsm⟩ := filter_head_wf hfil
            have hpwf : wfVer p = true := hL p hmemL
            exact hchange p (by rw [hpat]; simp [jsOrStr, wfVer_ne_empty hpwf])
              (wfVer_ne_empty hpwf)
              (by rw [engineCur_some hv0ne]; exact hpnev)




theorem Manifest.ext_get {a b : Manifest} (h : ∀ s, a.get s = b.get s) : a = b := by
  cases a
  cases b
  have h1 := h .nginx
  have h2 := h .mariadb
  have h3 := h .php
  have h4 := h .phpmyadmin
  simp only [Manifest.get] at h1 h2 h3 h4
  simp [h1, h2, h3, h4]

theorem runEngine_versions (m : Manifest) (F : Fetchers) :
    (runEngine m F).versions =
      ⟨(stepOf .nginx (F .nginx) (m.get .nginx)).entry,
       (stepOf .mariadb (F .mariadb) (m.get .mariadb)).entry,
       (stepOf .php (F .php) (m.get .php)).entry,
       (stepOf .phpmyadmin (F .phpmyadmin) (m.get .phpmyadmin)).entry⟩ := rfl

theorem runEngine_get (m : Manifest) (F : Fetchers) (s : Service) :
    (runEngine m F).versions.get s = (stepOf s (F s) (m.get s)).entry := by
  cases s <;> rfl

theorem runEngine_patchSummary (m : Manifest) (F : Fetchers) :
    (runEngine m F).patchSummary =
      (stepOf .nginx (F .nginx) (m.get .nginx)).patchAdds ++
      (stepOf .mariadb (F .mariadb) (m.get .mariadb)).patchAdds ++
      (stepOf .php (F .php) (m.get .php)).patchAdds ++
      (stepOf .phpmyadmin (F .phpmyadmin) (m.get .phpmyadmin)).patchAdds := rfl

theorem runEngine_mmSummary (m : Manifest) (F : Fetchers) :
    (runEngine m F).majorMinorSummary =
      (stepOf .nginx (F .nginx) (m.get .nginx)).mmAdds ++
      (stepOf .mariadb (F .mariadb) (m.get .mariadb)).mmAdds ++
      (stepOf .php (F .php) (m.get .php)).mmAdds ++
      (stepOf .phpmyadmin (F .phpmyadmin) (m.get .phpmyadmin)).mmAdds := rfl

theorem runEngine_hasPatch (m : Manifest) (F : Fetchers) :
    (runEngine m F).hasPatchUpdates =
      ((stepOf .nginx (F .nginx) (m.get .nginx)).setPatchFlag ||
       (stepOf .mariadb (F .mariadb) (m.get .mariadb)).setPatchFlag ||
       (stepOf .php (F .php) (m.get .php)).setPatchFlag ||
       (stepOf .phpmyadmin (F .phpmyadmin) (m.get .phpmyadmin)).setPatchFlag) := rfl

theorem runEngine_hasMM (m : Manifest) (F : Fetchers) :
    (runEngine m F).hasMajorMinorUpdates =
      ((stepOf .nginx (F .nginx) (m.get .nginx)).setMMFlag ||
       (stepOf .mariadb (F .mariadb) (m.get .mariadb)).setMMFlag ||
       (stepOf .php (F .php) (m.get .php)).setMMFlag ||
       (stepOf .phpmyadmin (F .phpmyadmin) (m.get .phpmyadmin)).setMMFlag) := rfl

theorem runEngine_failed (m : Manifest) (F : Fetchers) :
    (runEngine m F).failedServices =
      (if (stepOf .nginx (F .nginx) (m.get .nginx)).failed then [Service.nginx] else []) ++
      (if (stepOf .mariadb (F .mariadb) (m.get .mariadb)).failed then [Service.mariadb] else []) ++
      (if (stepOf .php (F .php) (m.get .php)).failed then [Service.php] else []) ++
      (if (stepOf .phpmyadmin (F .phpmyadmin) (m.get .phpmyadmin)).failed
        then [Service.phpmyadmin] else []) := rfl

theorem wfManifest_get {m : Manifest} (h : wfManifest m = true) (s : Service) :
    ∀ e, m.get s = some e → wfVer e.version = true := by
  intro e he
  unfold wfManifest at h
  simp only [Bool.and_eq_true] at h
  obtain ⟨⟨⟨h1, h2⟩, h3⟩, h4⟩ := h
  cases s <;> simp only [Manifest.get] at he
  · rw [he] at h1; exact h1
  · rw [he] at h2; exact h2
  · rw [he] at h3; exact h3
  · rw [he] at h4; exact h4




/-- Toy URL template used by concrete scenarios. -/
def demoUrl (v : String) : String := v ++ ".zip"

/-- Fetcher assignment for the idempotence scenario: nginx sees the
ranked list `[1.28.0, 1.27.5, 1.27.4]`; the other upstreams list
nothing this run; every probe succeeds. -/
def c1Fetchers : Fetchers := fun s =>
  match s with
  | .nginx => genericFetch (.ok ["1.28.0", "1.27.5", "1.27.4"]) demoUrl (fun _ => true)
  | _ => genericFetch (.ok []) demoUrl (fun _ => true)

/-- Manifest pinning nginx 1.27.4 for the idempotence scenario. -/
def c1M0 : Manifest := ⟨some ⟨"1.27.4", "1.27.4.zip"⟩, none, none, none⟩

/-- C1 counterexample: with nginx pinned at 1.27.4 and the same ranked
list `[1.28.0, 1.27.5, 1.27.4]` on both runs, run 1 selects the patch
1.27.5, so run 2 still sees the pending 1.28.0: it mutates the
manifest again (promoting to 1.28.0), reports a non-empty majorMinor
bucket, and triggers a write — the second run is not a no-op. -/
theorem c1_counterexample :
    (runEngine (runEngine c1M0 c1Fetchers).versions c1Fetchers).versions ≠
      (runEngine c1M0 c1Fetchers).versions ∧
    (runEngine (runEngine c1M0 c1Fetchers).versions c1Fetchers).majorMinorSummary =
      [⟨.nginx, "1.27.5", "1.28.0", some .minor⟩] ∧
    writeOccurred (runEngine (runEngine c1M0 c1Fetchers).versions c1Fetchers) = true := by
  decide

/-- C1 amended: with unchanged upstream ranked lists of well-formed
versions and a well-formed manifest, the second run records no patch
updates (its only possible actions promote entries to their ranked
heads, under the majorMinor bucket), and the run after it is a true
no-op: identical manifest, empty summary, both flags false, no write. -/
theorem c1_amended (L : Service → List String) (F : Fetchers) (m0 : Manifest)
    (hL : ∀ s, ∀ x ∈ L s, wfVer x = true)
    (hf : ∀ s, FaithfulFetcher (L s) (F s))
    (hm : wfManifest m0 = true) :
    (runEngine (runEngine m0 F).versions F).patchSummary = [] ∧
    (runEngine (runEngine m0 F).versions F).hasPatchUpdates = false ∧
    (runEngine (runEngine (runEngine m0 F).versions F).versions F).versions =
      (runEngine (runEngine m0 F).versions F).versions ∧
    (runEngine (runEngine (runEngine m0 F).versions F).versions F).patchSummary = [] ∧
    (runEngine (runEngine (runEngine m0 F).versions F).versions F).majorMinorSummary = [] ∧
    (runEngine (runEngine (runEngine m0 F).versions F).versions F).hasPatchUpdates = false ∧
    (runEngine (runEngine (runEngine m0 F).versions F).versions F).hasMajorMinorUpdates
      = false ∧
    writeOccurred (runEngine (runEngine (runEngine m0 F).versions F).versions F) = false := by
  have hc : ∀ s : Service,
      (stepOf s (F s) (stepOf s (F s) (m0.get s)).entry).patchAdds = [] ∧
      (stepOf s (F s) (stepOf s (F s) (m0.get s)).entry).setPatchFlag = false ∧
      (stepOf s (F s) (stepOf s (F s) (stepOf s (F s) (m0.get s)).entry).entry).entry =
        (stepOf s (F s) (stepOf s (F s) (m0.get s)).entry).entry ∧
      (stepOf s (F s) (stepOf s (F s) (stepOf s (F s) (m0.get s)).entry).entry).patchAdds
        = [] ∧
      (stepOf s (F s) (stepOf s (F s) (stepOf s (F s) (m0.get s)).entry).entry).mmAdds = [] ∧
      (stepOf s (F s) (stepOf s (F s) (stepOf s (F s) (m0.get s)).entry).entry).setPatchFlag
        = false ∧
      (stepOf s (F s) (stepOf s (F s) (stepOf s (F s) (m0.get s)).entry).entry).setMMFlag
        = false :=
    fun s => stepOf_converges (hL s) (hf s) (m0.get s) (wfManifest_get hm s)
  refine ⟨?_, ?_, ?_, ?_, ?_, ?_, ?_, ?_⟩
  · rw [runEngine_patchSummary]
    simp only [runEngine_get]
    simp [(hc .nginx).1, (hc .mariadb).1, (hc .php).1, (hc .phpmyadmin).1]
  · rw [runEngine_hasPatch]
    simp only [runEngine_get]
    simp [(hc .nginx).2.1, (hc .mariadb).2.1, (hc .php).2.1, (hc .phpmyadmin).2.1]
  · apply Manifest.ext_get
    intro s
    simp only [runEngine_get]
    exact (hc s).2.2.1
  · rw [runEngine_patchSummary]
    simp only [runEngine_get]
    simp [(hc .nginx).2.2.2.1, (hc .mariadb).2.2.2.1, (hc .php).2.2.2.1,
      (hc .phpmyadmin).2.2.2.1]
  · rw [runEngine_mmSummary]
    simp only [runEngine_get]
    simp [(hc .nginx).2.2.2.2.1, (hc .mariadb).2.2.2.2.1, (hc .php).2.2.2.2.1,
      (hc .phpmyadmin).2.2.2.2.1]
  · rw [runEngine_hasPatch]
    simp only [runEngine_get]
    simp [(hc .nginx).2.2.2.2.2.1, (hc .mariadb).2.2.2.2.2.1, (hc .php).2.2.2.2.2.1,
      (hc .phpmyadmin).2.2.2.2.2.1]
  · rw [runEngine_hasMM]
    simp only [runEngine_get]
    simp [(hc .nginx).2.2.2.2.2.2, (hc .mariadb).2.2.2.2.2.2, (hc .php).2.2.2.2.2.2,
      (hc .phpmyadmin).2.2.2.2.2.2]
  · unfold writeOccurred
    rw [runEngine_hasPatch, runEngine_hasMM]
    simp only [runEngine_get]
    simp [(hc .nginx).2.2.2.2.2.1, (hc .mariadb).2.2.2.2.2.1, (hc .php).2.2.2.2.2.1,
      (hc .phpmyadmin).2.2.2.2.2.1,
      (hc .nginx).2.2.2.2.2.2, (hc .mariadb).2.2.2.2.2.2, (hc .php).2.2.2.2.2.2,
      (hc .phpmyadmin).2.2.2.2.2.2]



/-- C3: a fetcher that throws is caught at its own service's boundary:
every other service's manifest entry ends up exactly as it would have
with any other behavior at the failing service, the failing service's
entry is untouched and it is reported under the failed list, and the
run still exits 0; the process exits non-zero exactly when the
manifest cannot be read or parsed at startup. -/
theorem c3_error_isolation (m0 : Manifest) (F G : Fetchers) (s0 : Service)
    (hFG : ∀ s, s ≠ s0 → F s = G s)
    (hthrow : ∀ cur, F s0 cur = .error ()) :
    (∀ s, s ≠ s0 → (runEngine m0 F).versions.get s = (runEngine m0 G).versions.get s) ∧
    (runEngine m0 F).versions.get s0 = m0.get s0 ∧
    s0 ∈ (runEngine m0 F).failedServices ∧
    exitCode (.ok m0) F = 0 ∧
    exitCode (.error ()) F = 1 := by
  refine ⟨?_, ?_, ?_, rfl, rfl⟩
  · intro s hs
    rw [runEngine_get, runEngine_get, hFG s hs]
  · rw [runEngine_get, stepOf_error (hthrow _)]
  · have hfail : (stepOf s0 (F s0) (m0.get s0)).failed = true := by
      rw [stepOf_error (hthrow _)]
    rw [runEngine_failed]
    cases s0 <;> simp [hfail]

/-- C4 amended: the manifest file is written back exactly when at least
one summary flag is set (`hasPatchUpdates || hasMajorMinorUpdates`),
and the write is a single whole-file replacement with the
pretty-printed JSON plus a trailing newline; whenever a write occurs,
at least one service's entry did change.  (The converse fails: an
in-memory change that records no summary entry — a first install — is
not persisted; see the counterexample.) -/
theorem c4_amended (L : Service → List String) (F : Fetchers) (m0 : Manifest)
    (hL : ∀ s, ∀ x ∈ L s, wfVer x = true)
    (hf : ∀ s, FaithfulFetcher (L s) (F s))
    (hm : wfManifest m0 = true) :
    (updateVersionsRun (.ok m0) F =
      .ok (runEngine m0 F,
        if writeOccurred (runEngine m0 F) then
          some (stringifyManifest (runEngine m0 F).versions ++ "\n")
        else none)) ∧
    (writeOccurred (runEngine m0 F) = true → (runEngine m0 F).versions ≠ m0) := by
  refine ⟨rfl, ?_⟩
  intro hw
  unfold writeOccurred at hw
  rw [runEngine_hasPatch, runEngine_hasMM] at hw
  have hchange : ∀ s : Service,
      ((stepOf s (F s) (m0.get s)).setPatchFlag = true ∨
        (stepOf s (F s) (m0.get s)).setMMFlag = true) →
      (runEngine m0 F).versions ≠ m0 := by
    intro s hflag heq
    have hne := stepOf_flag_changes (hL s) (hf s) (m0.get s) (wfManifest_get hm s) hflag
    apply hne
    rw [← runEngine_get m0 F s, heq]
  simp only [Bool.or_eq_true] at hw
  rcases hw with (((h | h) | h) | h) | (((h | h) | h) | h)
  · exact hchange .nginx (Or.inl h)
  · exact hchange .mariadb (Or.inl h)
  · exact hchange .php (Or.inl h)
  · exact hchange .phpmyadmin (Or.inl h)
  · exact hchange .nginx (Or.inr h)
  · exact hchange .mariadb (Or.inr h)
  · exact hchange .php (Or.inr h)
  · exact hchange .phpmyadmin (Or.inr h)



/-- C9: for a service with no manifest entry, the engine compares
candidates against the literal string "none", whose components parse
to `NaN`, so every comparison yields `isNewer: false`: nothing is
recorded in either bucket and neither flag is set, yet the in-memory
entry is still assigned the candidate's version and download URL. -/
theorem c9_first_install (s : Service) (L : List String)
    (f : Option String → Except Unit (Option FetchInfo)) (info : FetchInfo)
    (hL : ∀ x ∈ L, wfVer x = true) (hf : FaithfulFetcher L f)
    (hres : f none = .ok (some info)) :
    (∀ v, wfVer v = true → compareVersions v (some "none") = ⟨false, none⟩) ∧
    (stepOf s f none).patchAdds = [] ∧
    (stepOf s f none).mmAdds = [] ∧
    (stepOf s f none).setPatchFlag = false ∧
    (stepOf s f none).setMMFlag = false ∧
    (stepOf s f none).entry = some ⟨info.version, info.downloadUrl⟩ := by
  obtain ⟨hu, hver⟩ := hf _ _ hres
  rw [fa_none_cur] at hu
  cases hLh : L.head? with
  | none =>
    rw [hLh] at hu
    rw [hu] at hver
    simp [jsOrStr] at hver
  | some w =>
    rw [hLh] at hu
    have hwfw : wfVer w = true := hL w (head?_mem hLh)
    have hverw : info.version = w := by
      rw [hu] at hver
      simpa [jsOrStr] using hver
    have hpn : info.updates.patch = none := by rw [hu]
    have hlat : info.updates.latest = some w := by rw [hu]
    obtain ⟨hpa, hpf⟩ := stepOf_ok_patch_none (s := s) (e := none) hres hpn
    obtain ⟨hma, hmf⟩ := stepOf_ok_mm_not_newer (s := s) (e := none) hres hlat
      (by
        show (compareVersions w (some "none")).isNewer = false
        rw [compareVersions_vs_noneStr hwfw])
    have hent : (stepOf s f none).entry = some ⟨info.version, info.downloadUrl⟩ :=
      stepOf_ok_entry_sel hres
        (by rw [hpn, hlat, hverw]; rfl)
        (by rw [hverw]; exact wfVer_ne_empty hwfw)
        (by show info.version ≠ "none"; rw [hverw]; exact wfVer_ne_noneStr hwfw)
    exact ⟨fun v hv => compareVersions_vs_noneStr hv, hpa, hma, hpf, hmf, hent⟩

/-- C10: whenever the engine overwrites an entry from a `genericFetch`
candidate, the stored download URL is exactly the adapter's URL
template applied to the stored version — the adapter's
`bestVersion = updates.patch || updates.latest` coincides with the
engine's `selectedVersion` over the same updates object, so the two
fields never refer to different versions. -/
theorem c10_entry_url_consistent (s : Service) (L : List String) (U : String → String)
    (V : String → Bool) (cur : Option String) (info : FetchInfo) (e0 : Option Entry)
    (hfetch : genericFetch (.ok L) U V cur = .ok (some info))
    (hchange : (processService s e0 (.ok (some info))).entry ≠ e0) :
    info.downloadUrl = U info.version ∧
    (processService s e0 (.ok (some info))).entry = some ⟨info.version, U info.version⟩ := by
  have hinv : info.downloadUrl = U info.version ∧
      jsOrStr info.updates.patch info.updates.latest = some info.version := by
    unfold genericFetch at hfetch
    dsimp only at hfetch
    by_cases hL : L.isEmpty = true
    · rw [if_pos hL] at hfetch
      simp at hfetch
    · rw [if_neg hL] at hfetch
      split at hfetch
      · simp at hfetch
      · next best hbest =>
        split at hfetch
        · injection hfetch with hfetch
          injection hfetch with hfetch
          subst hfetch
          exact ⟨rfl, hbest⟩
        · simp at hfetch
  refine ⟨hinv.1, ?_⟩
  by_cases hcond : info.version ≠ "" ∧ info.version ≠ engineCur e0
  · have : (processService s e0 (.ok (some info))).entry =
        some ⟨info.version, info.downloadUrl⟩ := by
      unfold processService
      dsimp only
      rw [hinv.2]
      simp [hcond.1, hcond.2]
    rw [this, hinv.1]
  · exfalso
    apply hchange
    unfold processService
    dsimp only
    rw [hinv.2]
    dsimp only
    rw [if_neg hcond]




/-- When a successful candidate bundle makes the engine overwrite an
entry, the new entry is exactly the bundle's own (version, downloadUrl)
pair. -/
theorem processService_change_entry (s : Service) (e0 : Option Entry) (info : FetchInfo)
    (hsel : jsOrStr info.updates.patch info.updates.latest = some info.version)
    (hchange : (processService s e0 (.ok (some info))).entry ≠ e0) :
    (processService s e0 (.ok (some info))).entry = some ⟨info.version, info.downloadUrl⟩ := by
  by_cases hcond : info.version ≠ "" ∧ info.version ≠ engineCur e0
  · unfold processService
    dsimp only
    rw [hsel]
    simp [hcond.1, hcond.2]
  · exfalso
    apply hchange
    unfold processService
    dsimp only
    rw [hsel]
    dsimp only
    rw [if_neg hcond]

/-- C2 amended: the scripting runtime (php) is handled exactly like the
single-track services — the engine never stores a version list; when
the php entry is overwritten it becomes the single pair consisting of
the fetcher's selected version (`updates.patch || updates.latest`) and
its download URL.  In the spec's scenario (current 8.3.14, upstream
`[8.3.15, 8.2.27, 8.1.31]`) the accepted entry is 8.3.15 alone and the
recorded diff is a patch-bucket record 8.3.14 → 8.3.15 (see the
witness). -/
theorem c2_amended (L : List String) (rd : Except Unit (String → Option PhpVersionData))
    (s : Service) (e0 : Option Entry) (info : FetchInfo) (cur : Option String)
    (hfetch : phpFetch (.ok L) rd cur = .ok (some info))
    (hchange : (processService s e0 (.ok (some info))).entry ≠ e0) :
    (processService s e0 (.ok (some info))).entry = some ⟨info.version, info.downloadUrl⟩ := by
  have hver := (phpFetch_faithful L rd cur info hfetch).2
  exact processService_change_entry s e0 info hver.symm hchange

/-- PHP Windows releases metadata for the C2 scenario: the `8.3` line
is at 8.3.15 with one NTS x64 zip build. -/
def c2Data : String → Option PhpVersionData := fun k =>
  if k = "8.3" then some ⟨"8.3.15", [("nts-vs16-x64", "php-8.3.15-nts-Win32-vs16-x64.zip")]⟩
  else none

/-- Fetchers for the C2 scenario: php sees the ranked list
`[8.3.15, 8.2.27, 8.1.31]`; other upstreams list nothing. -/
def c2Fetchers : Fetchers := fun s =>
  match s with
  | .php => phpFetch (.ok ["8.3.15", "8.2.27", "8.1.31"]) (.ok c2Data)
  | _ => genericFetch (.ok []) (fun v => v ++ ".zip") (fun _ => true)

/-- Manifest pinning php 8.3.14 for the C2 scenario. -/
def c2M0 : Manifest := ⟨none, none, some ⟨"8.3.14", "old.zip"⟩, none⟩

/-- C2 counterexample: with php pinned at 8.3.14 and upstream ranked
list `[8.3.15, 8.2.27, 8.1.31]`, the engine does NOT adopt the list
wholesale: the stored php manifest value is the single pair
(8.3.15, its URL) — 8.1.31 appears nowhere — and the recorded diff is
one patch-bucket record 8.3.14 → 8.3.15, not membership marks
`+8.3.15, +8.1.31`. -/
theorem c2_counterexample :
    (runEngine c2M0 c2Fetchers).versions.php =
      some ⟨"8.3.15",
        "https://windows.php.net/downloads/releases/php-8.3.15-nts-Win32-vs16-x64.zip"⟩ ∧
    (runEngine c2M0 c2Fetchers).patchSummary = [⟨.php, "8.3.14", "8.3.15"⟩] ∧
    (runEngine c2M0 c2Fetchers).majorMinorSummary = [] := by
  decide

/-- C8 amended: the three `genericFetch`-shaped adapters (nginx,
mariadb, phpmyadmin) validate the constructed download URL through the
Artifact Validator before returning a candidate — a successful call's
URL always passed its validator, and a rejected URL fails the whole
adapter call (no fallback URL is ever attempted).  The php adapter,
however, performs no validator probe at all (see the counterexample),
so the claim's "every tracked service" is false. -/
theorem c8_amended (L : List String) (U : String → String) (V : String → Bool)
    (cur : Option String) :
    (∀ info, genericFetch (.ok L) U V cur = .ok (some info) → V info.downloadUrl = true) ∧
    (∀ best,
      jsOrStr (findAvailableUpdates L cur).patch (findAvailableUpdates L cur).latest
          = some best →
        L.isEmpty = false → V (U best) = false →
        genericFetch (.ok L) U V cur = .error ()) := by
  constructor
  · intro info hok
    unfold genericFetch at hok
    dsimp only at hok
    by_cases hL : L.isEmpty = true
    · rw [if_pos hL] at hok
      simp at hok
    · rw [if_neg hL] at hok
      split at hok
      · simp at hok
      · next b hb =>
        split at hok
        · next hv =>
          injection hok with hok
          injection hok with hok
          subst hok
          exact hv
        · simp at hok
  · intro best hbest hne hval
    unfold genericFetch
    dsimp only
    rw [if_neg (by simp [hne])]
    rw [hbest]
    dsimp only
    rw [if_neg (by simp [hval])]



/-- PHP Windows releases metadata whose only NTS x64 build is not a
`.zip` archive. -/
def c8Data : String → Option PhpVersionData := fun k =>
  if k = "8.3" then some ⟨"8.3.15", [("nts-x64", "php-8.3.15-nts-x64.tar.gz")]⟩ else none

/-- C8 counterexample: the php adapter performs no Artifact Validator
probe at all — it accepts a candidate whose constructed download URL
(`...tar.gz`) the validator would reject even on a successful probe,
and the adapter call still succeeds instead of trying a fallback or
failing. -/
theorem c8_counterexample :
    phpFetch (.ok ["8.3.15"]) (.ok c8Data) none =
      .ok (some ⟨"8.3.15",
        "https://windows.php.net/downloads/releases/php-8.3.15-nts-x64.tar.gz",
        ⟨none, some "8.3.15"⟩⟩) ∧
    isValidZip (.ok true)
      "https://windows.php.net/downloads/releases/php-8.3.15-nts-x64.tar.gz" = false :=
  ⟨rfl, by decide⟩

/-- Fetchers for the C4 counterexample: a first-install nginx candidate
and empty listings elsewhere. -/
def c4Fetchers : Fetchers := fun s =>
  match s with
  | .nginx => genericFetch (.ok ["1.2.3"]) demoUrl (fun _ => true)
  | _ => genericFetch (.ok []) demoUrl (fun _ => true)

/-- Empty manifest for the C4 counterexample. -/
def c4M0 : Manifest := ⟨none, none, none, none⟩

/-- C4 counterexample: on a first install the engine assigns the nginx
entry in memory (the manifest object changes), yet neither summary flag
is set — comparisons against the literal string "none" are never newer
— so the file is NOT written: a service changed during the run without
a write, refuting the "if and only if" as stated. -/
theorem c4_counterexample :
    (runEngine c4M0 c4Fetchers).versions ≠ c4M0 ∧
    (runEngine c4M0 c4Fetchers).versions.nginx = some ⟨"1.2.3", "1.2.3.zip"⟩ ∧
    writeOccurred (runEngine c4M0 c4Fetchers) = false := by
  decide

/-- The ranked lists behind `c1Fetchers`, per service. -/
def c1Lists : Service → List String := fun s =>
  match s with
  | .nginx => ["1.28.0", "1.27.5", "1.27.4"]
  | _ => []

/-- Witness for the amended C1 on the concrete nginx scenario: the
third run leaves the manifest untouched and does not write. -/
theorem c1_amended_witness :
    wfManifest c1M0 = true ∧
    (runEngine (runEngine (runEngine c1M0 c1Fetchers).versions c1Fetchers).versions
        c1Fetchers).versions =
      (runEngine (runEngine c1M0 c1Fetchers).versions c1Fetchers).versions ∧
    writeOccurred (runEngine (runEngine (runEngine c1M0 c1Fetchers).versions
        c1Fetchers).versions c1Fetchers) = false :=
  ⟨by decide,
   (c1_amended c1Lists c1Fetchers c1M0 (fun s => by cases s <;> decide)
      (fun s => by
        cases s
        · exact genericFetch_faithful ["1.28.0", "1.27.5", "1.27.4"] demoUrl (fun _ => true)
        · exact genericFetch_faithful [] demoUrl (fun _ => true)
        · exact genericFetch_faithful [] demoUrl (fun _ => true)
        · exact genericFetch_faithful [] demoUrl (fun _ => true))
      (by decide)).2.2.1,
   (c1_amended c1Lists c1Fetchers c1M0 (fun s => by cases s <;> decide)
      (fun s => by
        cases s
        · exact genericFetch_faithful ["1.28.0", "1.27.5", "1.27.4"] demoUrl (fun _ => true)
        · exact genericFetch_faithful [] demoUrl (fun _ => true)
        · exact genericFetch_faithful [] demoUrl (fun _ => true)
        · exact genericFetch_faithful [] demoUrl (fun _ => true))
      (by decide)).2.2.2.2.2.2.2⟩

/-- Download URL accepted in the C2 scenario. -/
def c2Url : String :=
  "https://windows.php.net/downloads/releases/php-8.3.15-nts-Win32-vs16-x64.zip"

/-- Witness for the amended C2 at the spec's scenario: the overwritten
php entry is the single pair (8.3.15, its URL). -/
theorem c2_amended_witness :
    (processService .php (some ⟨"8.3.14", "old.zip"⟩)
        (.ok (some ⟨"8.3.15", c2Url, ⟨some "8.3.15", some "8.3.15"⟩⟩))).entry ≠
      some ⟨"8.3.14", "old.zip"⟩ ∧
    (processService .php (some ⟨"8.3.14", "old.zip"⟩)
        (.ok (some ⟨"8.3.15", c2Url, ⟨some "8.3.15", some "8.3.15"⟩⟩))).entry =
      some ⟨"8.3.15", c2Url⟩ :=
  ⟨by decide,
   c2_amended ["8.3.15", "8.2.27", "8.1.31"] (.ok c2Data) .php
     (some ⟨"8.3.14", "old.zip"⟩) ⟨"8.3.15", c2Url, ⟨some "8.3.15", some "8.3.15"⟩⟩
     (some "8.3.14") rfl (by decide)⟩

/-- Fetchers for the C3 witness: nginx always throws. -/
def c3F : Fetchers := fun s =>
  match s with
  | .nginx => fun _ => .error ()
  | _ => genericFetch (.ok ["5.5.5"]) demoUrl (fun _ => true)

/-- The counterfactual fetchers for the C3 witness: identical to `c3F`
except nginx succeeds. -/
def c3G : Fetchers := fun s =>
  match s with
  | .nginx => genericFetch (.ok ["9.9.9"]) demoUrl (fun _ => true)
  | _ => genericFetch (.ok ["5.5.5"]) demoUrl (fun _ => true)

/-- Manifest for the C3 witness. -/
def c3M0 : Manifest := ⟨some ⟨"1.0.0", "a.zip"⟩, some ⟨"5.5.4", "b.zip"⟩, none, none⟩

/-- Witness for C3: with nginx throwing, mariadb is still updated just
as it would have been, nginx's entry is untouched, nginx is reported
failed, and the run exits 0. -/
theorem c3_error_isolation_witness :
    (∀ s, s ≠ Service.nginx → c3F s = c3G s) ∧
    (∀ cur, c3F .nginx cur = .error ()) ∧
    ((∀ s, s ≠ Service.nginx →
        (runEngine c3M0 c3F).versions.get s = (runEngine c3M0 c3G).versions.get s) ∧
      (runEngine c3M0 c3F).versions.get .nginx = c3M0.get .nginx ∧
      Service.nginx ∈ (runEngine c3M0 c3F).failedServices ∧
      exitCode (.ok c3M0) c3F = 0 ∧
      exitCode (.error ()) c3F = 1) := by
  have h1 : ∀ s, s ≠ Service.nginx → c3F s = c3G s := by
    intro s hs
    cases s
    · exact absurd rfl hs
    · rfl
    · rfl
    · rfl
  have h2 : ∀ cur, c3F .nginx cur = .error () := fun _ => rfl
  exact ⟨h1, h2, c3_error_isolation c3M0 c3F c3G .nginx h1 h2⟩

/-- Ranked lists for the C4 witness (nginx has a patch pending). -/
def c4WList : Service → List String := fun s =>
  match s with
  | .nginx => ["2.3.5", "2.3.4"]
  | _ => []

/-- Fetchers for the C4 witness. -/
def c4WFetchers : Fetchers := fun s =>
  match s with
  | .nginx => genericFetch (.ok ["2.3.5", "2.3.4"]) demoUrl (fun _ => true)
  | _ => genericFetch (.ok []) demoUrl (fun _ => true)

/-- Manifest for the C4 witness. -/
def c4WM0 : Manifest := ⟨some ⟨"2.3.4", "2.3.4.zip"⟩, none, none, none⟩

/-- Witness for the amended C4: a patch update sets the flag, the file
is written, and the manifest indeed changed. -/
theorem c4_amended_witness :
    wfManifest c4WM0 = true ∧
    writeOccurred (runEngine c4WM0 c4WFetchers) = true ∧
    (runEngine c4WM0 c4WFetchers).versions ≠ c4WM0 :=
  ⟨by decide, by decide,
   (c4_amended c4WList c4WFetchers c4WM0 (fun s => by cases s <;> decide)
      (fun s => by
        cases s
        · exact genericFetch_faithful ["2.3.5", "2.3.4"] demoUrl (fun _ => true)
        · exact genericFetch_faithful [] demoUrl (fun _ => true)
        · exact genericFetch_faithful [] demoUrl (fun _ => true)
        · exact genericFetch_faithful [] demoUrl (fun _ => true))
      (by decide)).2 (by decide)⟩

/-- Witness for the amended C8: a `genericFetch` adapter whose
validator rejects the constructed URL fails the whole call, and a
successful call's URL passed its validator. -/
theorem c8_amended_witness :
    ((fun _ : String => true) "1.2.3.zip" = true) ∧
    genericFetch (.ok ["1.2.3"]) demoUrl (fun _ => false) none = .error () :=
  ⟨(c8_amended ["1.2.3"] demoUrl (fun _ => true) none).1
      ⟨"1.2.3", "1.2.3.zip", ⟨none, some "1.2.3"⟩⟩ rfl,
   (c8_amended ["1.2.3"] demoUrl (fun _ => false) none).2 "1.2.3" (by decide) rfl rfl⟩

/-- Witness for C9 on a concrete first install: the entry is assigned
but no flag is set. -/
theorem c9_first_install_witness :
    (∀ x ∈ ["1.2.3"], wfVer x = true) ∧
    (stepOf .nginx (genericFetch (.ok ["1.2.3"]) demoUrl (fun _ => true)) none).entry =
      some ⟨"1.2.3", "1.2.3.zip"⟩ ∧
    (stepOf .nginx (genericFetch (.ok ["1.2.3"]) demoUrl (fun _ => true)) none).setPatchFlag
      = false ∧
    (stepOf .nginx (genericFetch (.ok ["1.2.3"]) demoUrl (fun _ => true)) none).setMMFlag
      = false := by
  have h := c9_first_install .nginx ["1.2.3"]
    (genericFetch (.ok ["1.2.3"]) demoUrl (fun _ => true))
    ⟨"1.2.3", "1.2.3.zip", ⟨none, some "1.2.3"⟩⟩
    (by decide) (genericFetch_faithful _ _ _) rfl
  exact ⟨by decide, h.2.2.2.2.2, h.2.2.2.1, h.2.2.2.2.1⟩

/-- Candidate bundle for the C10 witness. -/
def c10Info : FetchInfo := ⟨"3.1.4", "3.1.4.zip", ⟨none, some "3.1.4"⟩⟩

/-- Witness for C10 at a concrete first-install overwrite. -/
theorem c10_entry_url_consistent_witness :
    ((processService .nginx none (.ok (some c10Info))).entry ≠ none) ∧
    c10Info.downloadUrl = demoUrl c10Info.version ∧
    (processService .nginx none (.ok (some c10Info))).entry =
      some ⟨c10Info.version, demoUrl c10Info.version⟩ := by
  have h := c10_entry_url_consistent .nginx ["3.1.4"] demoUrl (fun _ => true) none
    c10Info none rfl (by decide)
  exact ⟨by decide, h.1, h.2⟩


end Wemp
